import Mathlib

set_option maxRecDepth 4000

/-!
Shallow embedding of the holdings-comparison and price-enrichment pipeline of
`supabase/functions/generate-portfolio-report/index.ts` (the canonical revision
of the pipeline in this repository).  JavaScript numbers are modelled as
rationals, nullable values as `Option`, and the external collaborators
(Yahoo search, Yahoo chart API, the Supabase price cache) as explicit
oracles and state passed to the translated functions.
-/

namespace PortfolioReport

/-- The JavaScript `\s` / `trim` whitespace class (ECMA WhiteSpace and
LineTerminator code points). -/
def isJsWhitespace (c : Char) : Bool :=
  decide (c.toNat ∈ ([9, 10, 11, 12, 13, 32, 0xa0, 0x1680, 0x2028, 0x2029,
      0x202f, 0x205f, 0x3000, 0xfeff] : List Nat)) ||
    (decide (0x2000 ≤ c.toNat) && decide (c.toNat ≤ 0x200a))

/-- `String.prototype.trim`: drop whitespace from both ends. -/
def jsTrimList (l : List Char) : List Char :=
  ((l.dropWhile isJsWhitespace).reverse.dropWhile isJsWhitespace).reverse

/-- The character substitution performed by `replace(/\./g, '-')`. -/
def dotToDash (c : Char) : Char :=
  if c = '.' then '-' else c

/-- `normalizeTicker` (index.ts lines 10-16): guard on the empty string, then
`trim().toUpperCase()`, then `replace(/\./g, '-')`, then `replace(/\s+/g, '')`
(removing every whitespace character). -/
def normalizeTicker (s : String) : String :=
  if s = "" then ""
  else
    String.mk
      ((((jsTrimList s.toList).map Char.toUpper).map dotToDash).filter
        fun c => !isJsWhitespace c)

/-- One reported position within a filing, as selected from the `holdings`
table (`company_name`, `cusip`, `ticker`, `shares`, `value_usd`,
`percentage_of_portfolio`). -/
structure Holding where
  company_name : String
  cusip : String
  ticker : Option String
  shares : ℚ
  value_usd : ℚ
  percentage_of_portfolio : ℚ
deriving DecidableEq, Inhabited

/-- One quarterly filing together with its holdings, as consumed by
`generateComparisonTable` (`cik` and `filing_date` only matter to the
out-of-scope store queries). -/
structure Filing where
  quarter : String
  year : Nat
  holdings : List Holding
deriving DecidableEq, Inhabited

/-- `getQuarterEndDate` (index.ts lines 79-87): quarter-end reporting date,
defaulting to Dec 31. -/
def getQuarterEndDate (quarter : String) (year : Nat) : String :=
  if quarter = "Q1" then toString year ++ "-03-31"
  else if quarter = "Q2" then toString year ++ "-06-30"
  else if quarter = "Q3" then toString year ++ "-09-30"
  else if quarter = "Q4" then toString year ++ "-12-31"
  else toString year ++ "-12-31"

/-- `String.prototype.toUpperCase` on the basic latin range, as a list map. -/
def jsUpper (s : String) : String :=
  String.mk (s.toList.map Char.toUpper)

/-- The JavaScript word-character class `\w`, i.e. `[A-Za-z0-9_]`. -/
def isWordChar (c : Char) : Bool :=
  c.isAlphanum || c = '_'

/-- `replace(/[^\w\s]/g, "")`: keep only word characters and whitespace. -/
def stripPunct (l : List Char) : List Char :=
  l.filter fun c => isWordChar c || isJsWhitespace c

/-- Worker for `split(/\s+/)`: a maximal whitespace run separates tokens, and a
leading or trailing run contributes an empty token, exactly as in JavaScript. -/
def splitWsAux (l : List Char) (cur : List Char) : List (List Char) :=
  match l with
  | [] => [cur.reverse]
  | c :: cs =>
    if isJsWhitespace c then
      cur.reverse :: splitWsAux (cs.dropWhile isJsWhitespace) []
    else
      splitWsAux cs (c :: cur)
termination_by l.length
decreasing_by
  · have h := List.Sublist.length_le
      (List.dropWhile_sublist (p := isJsWhitespace) (l := cs))
    simp only [List.length_cons]
    omega
  · simp

/-- `split(/\s+/)` on a list of characters. -/
def jsSplitWs (l : List Char) : List (List Char) :=
  splitWsAux l []

/-- The token list used by `similarity`:
`s.toLowerCase().replace(/[^\w\s]/g, "").split(/\s+/)`. -/
def wordTokens (s : String) : List String :=
  (jsSplitWs (stripPunct (s.toList.map Char.toLower))).map String.mk

/-- `similarity` (index.ts lines 19-28): set-based token overlap.  `new Set`
is modelled by `dedup`; `[...aset].filter(x => bset.has(x)).length` counts the
distinct tokens of `a` occurring among tokens of `b`, and
`new Set([...ta, ...tb]).size || 1` is the distinct-token count of the union
with the JavaScript `|| 1` guard. -/
def similarity (a b : String) : ℚ :=
  if a = "" ∨ b = "" then 0
  else
    let ta := wordTokens a
    let tb := wordTokens b
    let inter := ((ta.dedup).filter fun x => tb.contains x).length
    let union := ((ta ++ tb).dedup).length
    (inter : ℚ) / (if union = 0 then 1 else (union : ℚ))

/-- One entry of the Yahoo search response's `quotes` array; only the fields
read by `findTickerByName` are modelled. -/
structure Candidate where
  longname : Option String
  shortname : Option String
  name : Option String
  symbol : Option String
deriving DecidableEq, Inhabited

/-- JavaScript `a || b` on a nullable string: `b` when `a` is `null` or `""`. -/
def jsOrStr (a : Option String) (b : String) : String :=
  match a with
  | some s => if s = "" then b else s
  | none => b

/-- `const candName = q.longname || q.shortname || q.name || ""`. -/
def candName (q : Candidate) : String :=
  jsOrStr q.longname (jsOrStr q.shortname (jsOrStr q.name ""))

/-- `const candTicker = q.symbol || null` (an empty symbol is falsy). -/
def candTicker (q : Candidate) : Option String :=
  match q.symbol with
  | some s => if s = "" then none else some s
  | none => none

/-- The string whose similarity with the issuer name is computed:
`candName || candTicker || ""`. -/
def candArg (q : Candidate) : String :=
  if candName q = "" then (candTicker q).getD "" else candName q

/-- The per-candidate score of `findTickerByName` (index.ts lines 55-59):
`Math.min(1, similarity(issuerName, candName || candTicker || "") + booster)`
where the booster is `0.15` when the upper-cased issuer name contains the
upper-cased candidate ticker as a substring. -/
def candScore (issuer : String) (q : Candidate) : ℚ :=
  let s := similarity issuer (candArg q)
  let booster : ℚ :=
    if (jsUpper ((candTicker q).getD "")).toList <:+: (jsUpper issuer).toList
    then 15 / 100 else 0
  min 1 (s + booster)

/-- Running best candidate of the scan over `quotes`
(`let best = { ticker: null, score: 0, name: "" }`). -/
structure BestState where
  ticker : Option String
  score : ℚ
  name : String
deriving DecidableEq, Inhabited

/-- The `for (const q of quotes)` loop of `findTickerByName`: replace the
running best exactly when the candidate's score is strictly greater. -/
def bestLoop (issuer : String) : List Candidate → BestState → BestState
  | [], b => b
  | q :: qs, b =>
    let score := candScore issuer q
    bestLoop issuer qs
      (if b.score < score then ⟨candTicker q, score, candName q⟩ else b)

/-- Outcome of the `fetch` to the Yahoo search endpoint: the request threw, it
returned a non-2xx status, or it delivered a (possibly empty) quotes array. -/
inductive FetchOutcome where
  | exception : FetchOutcome
  | httpError : FetchOutcome
  | ok : List Candidate → FetchOutcome
deriving DecidableEq, Inhabited

/-- Result record of `findTickerByName`. -/
structure SearchResult where
  ticker : Option String
  score : ℚ
  source : String
  name : Option String
deriving DecidableEq, Inhabited

/-- `findTickerByName` (index.ts lines 31-76): empty names and failed or
non-2xx fetches resolve to a no-ticker result; otherwise the best-scoring
candidate is accepted exactly when its score reaches `0.65`. -/
def findTickerByName (issuer : String) (o : FetchOutcome) : SearchResult :=
  if issuer = "" then ⟨none, 0, "none", none⟩
  else
    match o with
    | .exception => ⟨none, 0, "yahoo:exception", none⟩
    | .httpError => ⟨none, 0, "yahoo:err", none⟩
    | .ok quotes =>
      let best := bestLoop issuer quotes ⟨none, 0, ""⟩
      if 65 / 100 ≤ best.score then
        ⟨best.ticker, best.score, "yahoo", some best.name⟩
      else
        ⟨none, best.score, "yahoo", some best.name⟩

/-- The `price_cache` table: rows `(ticker, report_date, price)` with a
nullable price. -/
def PriceCache := List (String × String × Option ℚ)

/-- The `.eq('ticker', t).eq('report_date', d).maybeSingle()` cache read:
`none` when no row exists, `some price` (itself possibly `none`) otherwise. -/
def cacheLookup (cache : PriceCache) (t d : String) : Option (Option ℚ) :=
  (cache.find? fun e => e.1 == t && e.2.1 == d).map fun e => e.2.2

/-- The `upsert(..., { onConflict: 'ticker,report_date' })` cache write. -/
def cacheUpsert (cache : PriceCache) (t d : String) (p : Option ℚ) :
    PriceCache :=
  (t, d, p) :: cache.filter fun e => !(e.1 == t && e.2.1 == d)

/-- `fetchYahooEODPrice` (index.ts lines 90-135) with the chart request
abstracted into the oracle `yahoo` (the close series' last entry for the
requested window, or `none` when the request fails or carries no data): the
guard on empty/`'N/A'` tickers skips the network, and a non-positive close is
rejected.  The boolean records whether the external endpoint was contacted. -/
def fetchYahooEODPrice (yahoo : String → String → Option ℚ)
    (ticker date : String) : Option ℚ × Bool :=
  if ticker = "" ∨ ticker = "N/A" then (none, false)
  else
    match yahoo (normalizeTicker ticker) date with
    | some p => (if 0 < p then some p else none, true)
    | none => (none, true)

/-- Result of one `getEODPrice` call: the returned price, whether the external
market-data source was contacted, and the cache state afterwards. -/
structure EODResult where
  price : Option ℚ
  externalCalled : Bool
  cache : PriceCache

/-- `getEODPrice` (index.ts lines 138-178): a cache hit short-circuits the
Yahoo fallback only through `cached?.price && cached.price > 0`; otherwise the
fallback runs and a positive fallback price is written back to the cache. -/
def getEODPrice (yahoo : String → String → Option ℚ) (cache : PriceCache)
    (ticker reportDate : String) : EODResult :=
  if ticker = "" ∨ ticker = "N/A" then ⟨none, false, cache⟩
  else
    let nt := normalizeTicker ticker
    let hit : Option ℚ :=
      match cacheLookup cache nt reportDate with
      | some (some p) => if 0 < p then some p else none
      | _ => none
    match hit with
    | some p => ⟨some p, false, cache⟩
    | none =>
      match fetchYahooEODPrice yahoo nt reportDate with
      | (some p, called) =>
        if 0 < p then ⟨some p, called, cacheUpsert cache nt reportDate (some p)⟩
        else ⟨none, called, cache⟩
      | (none, called) => ⟨none, called, cache⟩

/-- One output record of `generateComparisonTable` (index.ts lines 337-358),
plus the `percentOfPortfolio` field attached by the enrichment map (lines
369-372).  The two `*AvgPriceChangePct` fields are nullable. -/
structure Row where
  company : String
  ticker : String
  shares : ℚ
  currentValue : ℚ
  currentPct : ℚ
  currentAvgPrice : ℚ
  priorQValue : ℚ
  priorQPct : ℚ
  priorQAvgPrice : ℚ
  qoqValueChange : ℚ
  qoqPctChange : ℚ
  qoqAvgPriceChange : ℚ
  qoqAvgPriceChangePct : Option ℚ
  priorYValue : ℚ
  priorYPct : ℚ
  priorYAvgPrice : ℚ
  yoyValueChange : ℚ
  yoyPctChange : ℚ
  yoyAvgPriceChange : ℚ
  yoyAvgPriceChangePct : Option ℚ
  percentOfPortfolio : ℚ
deriving DecidableEq, Inhabited

/-- JavaScript truthiness of the nullable `holding.ticker`: `null` and `""`
are falsy. -/
def tickerFalsy : Option String → Bool
  | none => true
  | some t => t = ""

/-- The ticker-resolution pass (index.ts lines 267-285): a holding whose
`ticker` is falsy and whose `company_name` is truthy gets the resolver's
answer written into `ticker` when one is found.  `resolver` abstracts
`findTickerByName`'s returned ticker for a company name. -/
def resolveTicker (resolver : String → Option String) (h : Holding) :
    Holding :=
  if tickerFalsy h.ticker ∧ h.company_name ≠ "" then
    match resolver h.company_name with
    | some t => { h with ticker := some t }
    | none => h
  else h

/-- `priorQ?.holdings?.find((h) => h.cusip === holding.cusip)`. -/
def priorMatch (f : Option Filing) (cusip : String) : Option Holding :=
  f.bind fun g => g.holdings.find? fun p => p.cusip == cusip

/-- `something?.value_usd || 0` over an optional matched holding. -/
def matchedValue (g : Option Holding) : ℚ :=
  match g with
  | some p => p.value_usd
  | none => 0

/-- `something?.percentage_of_portfolio || 0` over an optional matched
holding. -/
def matchedPct (g : Option Holding) : ℚ :=
  match g with
  | some p => p.percentage_of_portfolio
  | none => 0

/-- `g?.shares > 0 ? g.value_usd / g.shares : 0`: the cost-basis average
price of an optionally matched holding. -/
def matchedAvgPrice (g : Option Holding) : ℚ :=
  match g with
  | some p => if 0 < p.shares then p.value_usd / p.shares else 0
  | none => 0

/-- The EOD fallback of index.ts lines 313-335: when the cost-basis average is
zero (JavaScript `!avg || avg === 0`) and the holding's ticker is truthy and
not `'N/A'` (and, for prior periods, the report date is non-null), a positive
`getEODPrice` result replaces the average.  `eod` abstracts `getEODPrice`'s
returned price for a `(ticker, reportDate)` pair. -/
def avgWithFallback (eod : String → String → Option ℚ) (base : ℚ)
    (ticker : Option String) (date : Option String) : ℚ :=
  match date, ticker with
  | some d, some t =>
    if base = 0 ∧ t ≠ "" ∧ t ≠ "N/A" then
      match eod t d with
      | some p => if 0 < p then p else base
      | none => base
    else base
  | _, _ => base

/-- The row built for one current holding by the main loop of
`generateComparisonTable` (index.ts lines 303-361). -/
def mkRow (eod : String → String → Option ℚ) (curDate : String)
    (pqDate pyDate : Option String) (priorQ priorY : Option Filing)
    (h : Holding) : Row :=
  let priorQHolding := priorMatch priorQ h.cusip
  let priorYHolding := priorMatch priorY h.cusip
  let currentAvgPrice₀ : ℚ :=
    if 0 < h.shares then h.value_usd / h.shares else 0
  let currentAvgPrice :=
    avgWithFallback eod currentAvgPrice₀ h.ticker (some curDate)
  let priorQAvgPrice :=
    avgWithFallback eod (matchedAvgPrice priorQHolding) h.ticker pqDate
  let priorYAvgPrice :=
    avgWithFallback eod (matchedAvgPrice priorYHolding) h.ticker pyDate
  { company := h.company_name
    ticker := match h.ticker with
      | some t => if t = "" then "N/A" else t
      | none => "N/A"
    shares := h.shares
    currentValue := h.value_usd
    currentPct := h.percentage_of_portfolio
    currentAvgPrice := currentAvgPrice
    priorQValue := matchedValue priorQHolding
    priorQPct := matchedPct priorQHolding
    priorQAvgPrice := priorQAvgPrice
    qoqValueChange := h.value_usd - matchedValue priorQHolding
    qoqPctChange := h.percentage_of_portfolio - matchedPct priorQHolding
    qoqAvgPriceChange := currentAvgPrice - priorQAvgPrice
    qoqAvgPriceChangePct :=
      if 0 < priorQAvgPrice then
        some ((currentAvgPrice - priorQAvgPrice) / priorQAvgPrice * 100)
      else none
    priorYValue := matchedValue priorYHolding
    priorYPct := matchedPct priorYHolding
    priorYAvgPrice := priorYAvgPrice
    yoyValueChange := h.value_usd - matchedValue priorYHolding
    yoyPctChange := h.percentage_of_portfolio - matchedPct priorYHolding
    yoyAvgPriceChange := currentAvgPrice - priorYAvgPrice
    yoyAvgPriceChangePct :=
      if 0 < priorYAvgPrice then
        some ((currentAvgPrice - priorYAvgPrice) / priorYAvgPrice * 100)
      else none
    percentOfPortfolio := 0 }

/-- `getQuarterEndDate(current.quarter, current.year)`. -/
def currentReportDate (f : Filing) : String :=
  getQuarterEndDate f.quarter f.year

/-- `priorQ ? getQuarterEndDate(priorQ.quarter, priorQ.year) : null`. -/
def priorReportDate (f : Option Filing) : Option String :=
  f.map fun g => getQuarterEndDate g.quarter g.year

/-- The `tableData` array: one row per current holding, in holdings order,
built after the in-place ticker-resolution pass. -/
def buildTableData (resolver : String → Option String)
    (eod : String → String → Option ℚ) (current : Filing)
    (priorQ priorY : Option Filing) : List Row :=
  (current.holdings.map (resolveTicker resolver)).map
    (mkRow eod (currentReportDate current) (priorReportDate priorQ)
      (priorReportDate priorY) priorQ priorY)

/-- `tableData.reduce((sum, row) => sum + row.currentValue, 0)`. -/
def totalValue (rows : List Row) : ℚ :=
  rows.foldl (fun s r => s + r.currentValue) 0

/-- The enrichment map (index.ts lines 369-372): attach `percentOfPortfolio`
as the share of the whole table's value, or `0` when that total is not
positive. -/
def enrichRow (total : ℚ) (r : Row) : Row :=
  { r with percentOfPortfolio :=
      if 0 < total then r.currentValue / total * 100 else 0 }

/-- `tableData.map(row => ({ ...row, percentOfPortfolio }))`. -/
def enrichRows (rows : List Row) : List Row :=
  rows.map (enrichRow (totalValue rows))

/-- The comparator `(a, b) => b.currentValue - a.currentValue` of
`enrichedData.sort`: `a` may precede `b` exactly when the comparator is
non-positive. -/
def rowLE (a b : Row) : Bool :=
  decide (b.currentValue ≤ a.currentValue)

/-- `generateComparisonTable` (index.ts lines 261-384): build one row per
current holding, enrich with `percentOfPortfolio`, sort by `currentValue`
descending (ECMAScript `sort` is stable, modelled by `mergeSort`), and keep
the top 20 rows. -/
def generateComparisonTable (resolver : String → Option String)
    (eod : String → String → Option ℚ) (current : Filing)
    (priorQ priorY : Option Filing) : List Row :=
  ((enrichRows (buildTableData resolver eod current priorQ priorY)).mergeSort
    rowLE).take 20

/-! ### Definitions used only in the statements of the claims -/

/-- Token-set intersection-over-union of two strings, in the spec's words:
word tokens are lower-cased and punctuation-stripped, and the score is the
distinct-token intersection size over the distinct-token union size. -/
def tokenIoU (a b : String) : ℚ :=
  (((wordTokens a).toFinset ∩ (wordTokens b).toFinset).card : ℚ) /
    (((wordTokens a).toFinset ∪ (wordTokens b).toFinset).card : ℚ)

/-- The running maximum of candidate scores, seeded with `s` (the scan of
`findTickerByName` starts from a best score of `0`). -/
def maxFrom (issuer : String) (qs : List Candidate) (s : ℚ) : ℚ :=
  qs.foldl (fun m q => max m (candScore issuer q)) s

/-- A ticker that passes the EOD-fallback guard
`holding.ticker && holding.ticker !== 'N/A'`. -/
def tickerUsable : Option String → Bool
  | none => false
  | some t => decide (t ≠ "") && decide (t ≠ "N/A")

/-- The (claim-side) average-price contract of one period's row field:
the cost-basis quotient wins when it is nonzero; a zero cost basis falls back
to a positive EOD price when the guard passes, and stays `0` otherwise. -/
def avgSpec (eod : String → String → Option ℚ) (date : Option String)
    (ticker : Option String) (base result : ℚ) : Prop :=
  (base ≠ 0 → result = base) ∧
  (base = 0 → ∀ d, date = some d → ∀ t, ticker = some t → t ≠ "" → t ≠ "N/A" →
    result = match eod t d with
      | some p => if 0 < p then p else 0
      | none => 0) ∧
  (base = 0 → date = none ∨ tickerUsable ticker = false → result = 0)

/-- The sort comparator transported to `(company, currentValue)` pairs. -/
def pairLE (a b : String × ℚ) : Bool :=
  decide (b.2 ≤ a.2)

/-- Total reported value of a filing's holdings (the comparison table's
`totalPortfolioValue` equals this sum because `currentValue` is the holding's
`value_usd`). -/
def holdingsTotal (f : Filing) : ℚ :=
  f.holdings.foldl (fun s h => s + h.value_usd) 0

/-! ### Concrete fixtures for counterexamples, scenarios and witnesses -/

/-- A holding with only `company_name`, `cusip` and `value_usd` populated. -/
def plainHolding (i : Nat) (v : ℚ) : Holding :=
  ⟨"H" ++ toString i, "C" ++ toString i, none, 0, v, 0⟩

/-- The 21 pairwise distinct holding values `2100, …, 100`. -/
def values21 : List ℚ :=
  [2100, 2000, 1900, 1800, 1700, 1600, 1500, 1400, 1300, 1200, 1100,
   1000, 900, 800, 700, 600, 500, 400, 300, 200, 100]

/-- A filing with 21 holdings of pairwise distinct values `2100, …, 100`,
so that the top-20 truncation of the comparison table drops `"H21"`. -/
def filing21 : Filing :=
  ⟨"Q1", 2024,
    (List.range 21).zipWith (fun i v => plainHolding (i + 1) v) values21⟩

/-- A single holding with `shares = 0` but a usable ticker, triggering the
EOD fallback for the average price. -/
def filingZeroShares : Filing :=
  ⟨"Q1", 2024, [⟨"ZeroCo", "CZ", some "TT", 0, 500, 100⟩]⟩

/-- The spec's C6 scenario holding:
`{cusip: "X", valueUsd: 1_000_000, shares: 10_000}` with no prior match. -/
def filingX : Filing :=
  ⟨"Q2", 2024, [⟨"XCorp", "X", none, 10000, 1000000, 100⟩]⟩

/-- Three holdings with `currentValue` `[500, 1500, 1000]` in input order. -/
def filingSortDemo : Filing :=
  ⟨"Q3", 2023, [⟨"A", "CA", none, 1, 500, 10⟩, ⟨"B", "CB", none, 1, 1500, 60⟩,
    ⟨"C", "CC", none, 1, 1000, 30⟩]⟩

/-- A Yahoo search candidate for the `"Acme Corp"` witness scenario. -/
def acmeCandidate : Candidate :=
  ⟨some "Acme Corp Inc", none, none, some "ACME"⟩

/-- The trivial resolver and price oracles used by the concrete scenarios. -/
def noResolver : String → Option String := fun _ => none

/-- A price oracle that never finds a price. -/
def noPrices : String → String → Option ℚ := fun _ _ => none

/-- A price oracle that always quotes 100. -/
def alwaysPrice100 : String → String → Option ℚ := fun _ _ => some 100

/-! ### Helper lemmas about characters and lists -/

theorem char_toUpper_toUpper (c : Char) : c.toUpper.toUpper = c.toUpper := by
  by_cases h : 97 ≤ c.toNat ∧ c.toNat ≤ 122
  · obtain ⟨h1, h2⟩ := h
    obtain ⟨n, h1n, h2n, rfl⟩ : ∃ n, 97 ≤ n ∧ n ≤ 122 ∧ c = Char.ofNat n :=
      ⟨c.toNat, h1, h2, (Char.ofNat_toNat c).symm⟩
    interval_cases n <;> decide
  · have hc : c.toUpper = c := by
      simp only [Char.toUpper]
      rw [if_neg h]
    rw [hc, hc]

theorem toUpper_dotToDash_toUpper (c : Char) :
    (dotToDash c.toUpper).toUpper = dotToDash c.toUpper := by
  by_cases h : c.toUpper = '.'
  · rw [h]; decide
  · rw [dotToDash, if_neg h, char_toUpper_toUpper]

theorem dotToDash_ne_dot (c : Char) : dotToDash c ≠ '.' := by
  by_cases h : c = '.'
  · rw [dotToDash, if_pos h]; decide
  · rw [dotToDash, if_neg h]; exact h

theorem dropWhile_eq_self_of_forall {p : Char → Bool} {l : List Char}
    (h : ∀ x ∈ l, p x = false) : l.dropWhile p = l := by
  cases l with
  | nil => rfl
  | cons a t =>
    rw [List.dropWhile_cons, if_neg]
    simp [h a (List.mem_cons_self a t)]

theorem jsTrimList_eq_self {l : List Char}
    (h : ∀ x ∈ l, isJsWhitespace x = false) : jsTrimList l = l := by
  unfold jsTrimList
  rw [dropWhile_eq_self_of_forall h,
    dropWhile_eq_self_of_forall (fun x hx => h x (List.mem_reverse.mp hx)),
    List.reverse_reverse]

/-! ### C4: `normalizeTicker` idempotence and the `BRK` examples -/

theorem normalizeTicker_mem_not_ws {s : String} {c : Char}
    (hc : c ∈ (normalizeTicker s).toList) : isJsWhitespace c = false := by
  unfold normalizeTicker at hc
  split at hc
  · simp at hc
  · have := List.of_mem_filter hc
    simpa using this

theorem normalizeTicker_mem_shape {s : String} {c : Char}
    (hc : c ∈ (normalizeTicker s).toList) :
    ∃ d, c = dotToDash (Char.toUpper d) := by
  unfold normalizeTicker at hc
  split at hc
  · simp at hc
  · have hmem := List.mem_of_mem_filter hc
    simp only [List.mem_map] at hmem
    obtain ⟨u, ⟨d, hd, hdu⟩, huc⟩ := hmem
    exact ⟨d, by rw [← huc, ← hdu]⟩

/-- C4, amended: `normalizeTicker` is idempotent, and `"BRK.B"` normalizes to
`"BRK-B"`, but `"brk b"` normalizes to `"BRKB"`: internal whitespace is
removed outright, not replaced by a dash, so the two variants do not
coincide. -/
theorem normalizeTicker_idempotent :
    (∀ s : String, normalizeTicker (normalizeTicker s) = normalizeTicker s) ∧
    normalizeTicker "BRK.B" = "BRK-B" ∧ normalizeTicker "brk b" = "BRKB" := by
  refine ⟨fun s => ?_, by decide, by decide⟩
  have hmk : ∀ t : String, String.mk t.toList = t := fun t => by cases t; rfl
  by_cases hs : normalizeTicker s = ""
  · rw [hs]; decide
  · have hup : ∀ c ∈ (normalizeTicker s).toList, Char.toUpper c = c := by
      intro c hc
      obtain ⟨d, rfl⟩ := normalizeTicker_mem_shape hc
      exact toUpper_dotToDash_toUpper d
    have hdot : ∀ c ∈ (normalizeTicker s).toList, dotToDash c = c := by
      intro c hc
      obtain ⟨d, rfl⟩ := normalizeTicker_mem_shape hc
      rw [dotToDash, if_neg (dotToDash_ne_dot d.toUpper)]
    have hws : ∀ c ∈ (normalizeTicker s).toList, isJsWhitespace c = false :=
      fun c hc => normalizeTicker_mem_not_ws hc
    conv_lhs => rw [normalizeTicker]
    rw [if_neg hs, jsTrimList_eq_self hws]
    rw [List.map_congr_left hup, List.map_id',
      List.map_congr_left hdot, List.map_id']
    rw [List.filter_eq_self.mpr (fun a ha => by simp [hws a ha])]
    exact hmk _

/-- C4 counterexample: the claim asserts
`normalizeTicker "brk b" = "BRK-B"`, but the code removes internal
whitespace instead of dashing it, yielding `"BRKB"`. -/
theorem normalizeTicker_brk_space_counterexample :
    normalizeTicker "brk b" = "BRKB" ∧ normalizeTicker "BRK.B" = "BRK-B" ∧
      ("BRKB" : String) ≠ "BRK-B" := by decide

/-! ### C2: `getEODPrice` and the price cache -/

/-- C2, amended: a cache hit suppresses the external market-data call only
when the cached price is positive (`cached?.price && cached.price > 0`); a
cached `null` price does not short-circuit, and the external source is then
contacted (whenever the normalized ticker itself is fetchable). -/
theorem getEODPrice_cache_semantics (yahoo : String → String → Option ℚ)
    (cache : PriceCache) (t d : String) (ht : ¬(t = "" ∨ t = "N/A")) :
    (∀ p : ℚ, cacheLookup cache (normalizeTicker t) d = some (some p) →
      0 < p → getEODPrice yahoo cache t d = ⟨some p, false, cache⟩) ∧
    (cacheLookup cache (normalizeTicker t) d = some none →
      ¬(normalizeTicker t = "" ∨ normalizeTicker t = "N/A") →
      (getEODPrice yahoo cache t d).externalCalled = true) := by
  constructor
  · intro p hc hp
    simp only [getEODPrice, if_neg ht, hc, if_pos hp]
  · intro hc hn
    simp only [getEODPrice, if_neg ht, hc, fetchYahooEODPrice, if_neg hn]
    cases h : yahoo (normalizeTicker (normalizeTicker t)) d with
    | none => simp
    | some p =>
      by_cases hp : 0 < p <;> simp [hp]

/-- Witness for the amended C2 theorem at a concrete cache and ticker. -/
theorem getEODPrice_cache_semantics_witness :
    getEODPrice (fun _ _ => some 150) [("AAPL", "2020-12-31", some 99)]
      "AAPL" "2020-12-31" = ⟨some 99, false, [("AAPL", "2020-12-31", some 99)]⟩ :=
  (getEODPrice_cache_semantics (fun _ _ => some 150)
    [("AAPL", "2020-12-31", some 99)] "AAPL" "2020-12-31" (by decide)).1
    99 (by decide) (by decide)

/-- C2 counterexample: the cache holds an explicit `null` entry for
`(AAPL, 2023-03-31)`, yet `getEODPrice` still contacts the external
market-data source for that key (and returns its quote). -/
theorem getEODPrice_cached_null_counterexample :
    (getEODPrice (fun _ _ => some 150) [("AAPL", "2023-03-31", none)]
      "AAPL" "2023-03-31").externalCalled = true ∧
    (getEODPrice (fun _ _ => some 150) [("AAPL", "2023-03-31", none)]
      "AAPL" "2023-03-31").price = some 150 := by
  constructor <;> rfl

/-! ### Structural lemmas about `generateComparisonTable` -/

theorem resolveTicker_fields (res : String → Option String) (h : Holding) :
    (resolveTicker res h).company_name = h.company_name ∧
    (resolveTicker res h).cusip = h.cusip ∧
    (resolveTicker res h).shares = h.shares ∧
    (resolveTicker res h).value_usd = h.value_usd ∧
    (resolveTicker res h).percentage_of_portfolio =
      h.percentage_of_portfolio := by
  unfold resolveTicker
  split
  · cases res h.company_name <;> exact ⟨rfl, rfl, rfl, rfl, rfl⟩
  · exact ⟨rfl, rfl, rfl, rfl, rfl⟩

/-- Every row of the returned table is the enriched row of some current
holding (after ticker resolution). -/
theorem mem_generateComparisonTable {res : String → Option String}
    {eod : String → String → Option ℚ} {cur : Filing}
    {pQ pY : Option Filing} {r : Row}
    (hr : r ∈ generateComparisonTable res eod cur pQ pY) :
    ∃ h ∈ cur.holdings,
      r = enrichRow (totalValue (buildTableData res eod cur pQ pY))
        (mkRow eod (currentReportDate cur) (priorReportDate pQ)
          (priorReportDate pY) pQ pY (resolveTicker res h)) := by
  have h1 : r ∈ (enrichRows (buildTableData res eod cur pQ pY)).mergeSort
      rowLE := List.take_subset _ _ hr
  have h2 : r ∈ enrichRows (buildTableData res eod cur pQ pY) :=
    List.mem_mergeSort.mp h1
  unfold enrichRows at h2
  obtain ⟨r0, hr0, rfl⟩ := List.mem_map.mp h2
  unfold buildTableData at hr0
  obtain ⟨h', hh', rfl⟩ := List.mem_map.mp hr0
  obtain ⟨h, hh, rfl⟩ := List.mem_map.mp hh'
  exact ⟨h, hh, rfl⟩

/-- When the current filing has at most 20 holdings, the enriched row of each
holding survives the top-20 truncation. -/
theorem gct_mem_of_mem_holdings {res : String → Option String}
    {eod : String → String → Option ℚ} {cur : Filing}
    {pQ pY : Option Filing} {h : Holding} (hh : h ∈ cur.holdings)
    (hlen : cur.holdings.length ≤ 20) :
    enrichRow (totalValue (buildTableData res eod cur pQ pY))
      (mkRow eod (currentReportDate cur) (priorReportDate pQ)
        (priorReportDate pY) pQ pY (resolveTicker res h)) ∈
      generateComparisonTable res eod cur pQ pY := by
  have hmem : enrichRow (totalValue (buildTableData res eod cur pQ pY))
      (mkRow eod (currentReportDate cur) (priorReportDate pQ)
        (priorReportDate pY) pQ pY (resolveTicker res h)) ∈
      enrichRows (buildTableData res eod cur pQ pY) := by
    unfold enrichRows
    refine List.mem_map_of_mem _ ?_
    unfold buildTableData
    exact List.mem_map_of_mem _ (List.mem_map_of_mem _ hh)
  have hlen2 : ((enrichRows (buildTableData res eod cur pQ pY)).mergeSort
      rowLE).length ≤ 20 := by
    rw [List.length_mergeSort]
    unfold enrichRows buildTableData
    simpa using hlen
  unfold generateComparisonTable
  rw [List.take_of_length_le hlen2]
  exact List.mem_mergeSort.mpr hmem

/-- Evaluation helper: when the enriched table happens to be built in
descending value order already, the stable sort leaves it unchanged and the
output is just its first 20 rows. -/
theorem gct_eval (res : String → Option String)
    (eod : String → String → Option ℚ) (cur : Filing) (pQ pY : Option Filing)
    (h : List.Pairwise (fun a b => rowLE a b = true)
      (enrichRows (buildTableData res eod cur pQ pY))) :
    generateComparisonTable res eod cur pQ pY =
      (enrichRows (buildTableData res eod cur pQ pY)).take 20 := by
  unfold generateComparisonTable
  rw [List.mergeSort_of_sorted h]

/-! ### C1: one row per current holding, none for prior-only holdings -/

/-- C1, amended: whenever the current filing has at most 20 holdings, every
current holding `h` yields a returned `ComparisonRow` whose `company` is `h`'s
company name (with more than 20 holdings the output truncates to the top 20 by
`currentValue`); conversely every returned row stems from a current holding,
so no row exists for a prior-period holding without a current match. -/
theorem comparisonRow_for_every_holding (res : String → Option String)
    (eod : String → String → Option ℚ) (cur : Filing)
    (pQ pY : Option Filing) :
    (cur.holdings.length ≤ 20 →
      ∀ h ∈ cur.holdings, ∃ r ∈ generateComparisonTable res eod cur pQ pY,
        r.company = h.company_name) ∧
    (∀ r ∈ generateComparisonTable res eod cur pQ pY,
      ∃ h ∈ cur.holdings, r.company = h.company_name) := by
  constructor
  · intro hlen h hh
    refine ⟨_, gct_mem_of_mem_holdings hh hlen, ?_⟩
    simp [enrichRow, mkRow, (resolveTicker_fields res h).1]
  · intro r hr
    obtain ⟨h, hh, rfl⟩ := mem_generateComparisonTable hr
    exact ⟨h, hh, by simp [enrichRow, mkRow, (resolveTicker_fields res h).1]⟩

/-- Witness for the amended C1 theorem at a concrete 3-holding filing. -/
theorem comparisonRow_for_every_holding_witness :
    ∃ r ∈ generateComparisonTable noResolver noPrices filingSortDemo none none,
      r.company = "A" :=
  (comparisonRow_for_every_holding noResolver noPrices filingSortDemo
    none none).1 (by decide) ⟨"A", "CA", none, 1, 500, 10⟩ (by decide)

/-- C1 counterexample: with 21 current holdings the returned `comparisonData`
contains no row for the smallest holding `"H21"`, although it is a current
holding. -/
theorem gct_top20_drops_holding_counterexample :
    "H21" ∈ filing21.holdings.map Holding.company_name ∧
    "H21" ∉ (generateComparisonTable noResolver noPrices filing21
      none none).map Row.company := by
  constructor
  · decide
  · with_unfolding_all decide

/-! ### C3: `percentOfPortfolio` denominators -/

theorem totalValue_buildTableData (res : String → Option String)
    (eod : String → String → Option ℚ) (cur : Filing)
    (pQ pY : Option Filing) :
    totalValue (buildTableData res eod cur pQ pY) = holdingsTotal cur := by
  unfold totalValue buildTableData holdingsTotal
  rw [List.foldl_map, List.foldl_map]
  apply List.foldl_ext
  intro a h hh
  simp [mkRow, (resolveTicker_fields res h).2.2.2.1]

/-- C3, amended: every returned row's `percentOfPortfolio` is its
`currentValue` as a share of the **full** filing's total current value (the
sum over all holdings, computed before the top-20 truncation), not of the
displayed subset's total; it is `0` when that full total is not positive. -/
theorem percentOfPortfolio_full_total (res : String → Option String)
    (eod : String → String → Option ℚ) (cur : Filing)
    (pQ pY : Option Filing) :
    ∀ r ∈ generateComparisonTable res eod cur pQ pY,
      (0 < holdingsTotal cur →
        r.percentOfPortfolio = r.currentValue / holdingsTotal cur * 100) ∧
      (¬0 < holdingsTotal cur → r.percentOfPortfolio = 0) := by
  intro r hr
  obtain ⟨h, hh, rfl⟩ := mem_generateComparisonTable hr
  rw [enrichRow, totalValue_buildTableData res eod cur pQ pY]
  constructor
  · intro hpos
    simp [if_pos hpos]
  · intro hneg
    simp [if_neg hneg]

/-- Witness for the amended C3 theorem at a concrete filing whose total is
positive. -/
theorem percentOfPortfolio_full_total_witness :
    (generateComparisonTable noResolver noPrices filingSortDemo none
      none).headI.percentOfPortfolio =
    (generateComparisonTable noResolver noPrices filingSortDemo none
      none).headI.currentValue / holdingsTotal filingSortDemo * 100 :=
  ((percentOfPortfolio_full_total noResolver noPrices filingSortDemo none
    none) _ (by with_unfolding_all decide)).1 (by with_unfolding_all decide)

theorem filing21_head_pct :
    ((generateComparisonTable noResolver noPrices filing21 none none).map
      Row.percentOfPortfolio).head? = some (100 / 11) := by
  with_unfolding_all decide

theorem filing21_output_values :
    (generateComparisonTable noResolver noPrices filing21 none none).map
      Row.currentValue = values21.take 20 := by
  with_unfolding_all decide

/-- C3 counterexample: with 21 holdings of total value 23100 and a displayed
top-20 subset of total value 23000, the first returned row (value 2100) keeps
`percentOfPortfolio = 2100 / 23100 * 100 = 100/11`, which is not the displayed
subset's share `2100 / 23000 * 100`. -/
theorem percentOfPortfolio_subset_counterexample :
    ((generateComparisonTable noResolver noPrices filing21 none none).map
      Row.percentOfPortfolio).head? = some (100 / 11) ∧
    (generateComparisonTable noResolver noPrices filing21 none none).map
      Row.currentValue = values21.take 20 ∧
    (values21.take 20).foldl (fun s v => s + v) 0 = 23000 ∧
    ¬((100 : ℚ) / 11 = 2100 / 23000 * 100) :=
  ⟨filing21_head_pct, filing21_output_values,
    by simp [values21]; norm_num, by norm_num⟩

/-! ### C5: average purchase prices and the EOD fallback -/

/-- The value computed by the fallback logic satisfies the three-case
average-price contract. -/
theorem avgWithFallback_spec (eod : String → String → Option ℚ)
    (date tick : Option String) (base : ℚ) :
    avgSpec eod date tick base (avgWithFallback eod base tick date) := by
  unfold avgSpec avgWithFallback
  refine ⟨?_, ?_, ?_⟩
  · intro hb
    cases date <;> cases tick <;> simp [hb]
  · intro hb d hd t ht h1 h2
    subst hb; subst hd; subst ht
    simp [h1, h2]
  · intro hb hcase
    subst hb
    rcases hcase with hd | ht
    · subst hd; cases tick <;> simp
    · cases date with
      | none => cases tick <;> simp
      | some d =>
        cases tick with
        | none => simp
        | some t =>
          simp only [tickerUsable, Bool.and_eq_false_iff,
            decide_eq_false_iff_not, not_not] at ht
          rcases ht with h | h <;> simp [h]

/-- C5, amended: for every returned row there is a current holding whose three
average-price fields obey the fallback contract: the cost-basis quotient
`valueUsd / shares` (0 when `shares` is not positive) wins whenever it is
nonzero; when it is zero (in particular when `shares == 0`) and the holding
has a usable ticker with the period's report date available and a positive EOD
price, that EOD price is published instead; otherwise the field is 0.  Prior
periods use the prior holding matched by cusip for the quotient, and
additionally require the prior filing to exist for the fallback. -/
theorem avgPrice_characterization (res : String → Option String)
    (eod : String → String → Option ℚ) (cur : Filing)
    (pQ pY : Option Filing) :
    ∀ r ∈ generateComparisonTable res eod cur pQ pY,
      ∃ h ∈ cur.holdings,
        avgSpec eod (some (currentReportDate cur))
          (resolveTicker res h).ticker
          (matchedAvgPrice (some (resolveTicker res h))) r.currentAvgPrice ∧
        avgSpec eod (priorReportDate pQ) (resolveTicker res h).ticker
          (matchedAvgPrice (priorMatch pQ h.cusip)) r.priorQAvgPrice ∧
        avgSpec eod (priorReportDate pY) (resolveTicker res h).ticker
          (matchedAvgPrice (priorMatch pY h.cusip)) r.priorYAvgPrice := by
  intro r hr
  obtain ⟨h, hh, rfl⟩ := mem_generateComparisonTable hr
  have hcusip := (resolveTicker_fields res h).2.1
  refine ⟨h, hh, ?_, ?_, ?_⟩
  · simpa [enrichRow, mkRow, matchedAvgPrice] using
      avgWithFallback_spec eod (some (currentReportDate cur))
        (resolveTicker res h).ticker
        (matchedAvgPrice (some (resolveTicker res h)))
  · rw [← hcusip]
    simpa [enrichRow, mkRow] using
      avgWithFallback_spec eod (priorReportDate pQ)
        (resolveTicker res h).ticker
        (matchedAvgPrice (priorMatch pQ (resolveTicker res h).cusip))
  · rw [← hcusip]
    simpa [enrichRow, mkRow] using
      avgWithFallback_spec eod (priorReportDate pY)
        (resolveTicker res h).ticker
        (matchedAvgPrice (priorMatch pY (resolveTicker res h).cusip))

/-- Witness for the amended C5 theorem at the zero-shares fixture. -/
theorem avgPrice_characterization_witness :
    ∃ h ∈ filingZeroShares.holdings,
      avgSpec alwaysPrice100 (some (currentReportDate filingZeroShares))
        (resolveTicker noResolver h).ticker
        (matchedAvgPrice (some (resolveTicker noResolver h)))
        (generateComparisonTable noResolver alwaysPrice100 filingZeroShares
          none none).headI.currentAvgPrice ∧
      avgSpec alwaysPrice100 (priorReportDate none)
        (resolveTicker noResolver h).ticker
        (matchedAvgPrice (priorMatch none h.cusip))
        (generateComparisonTable noResolver alwaysPrice100 filingZeroShares
          none none).headI.priorQAvgPrice ∧
      avgSpec alwaysPrice100 (priorReportDate none)
        (resolveTicker noResolver h).ticker
        (matchedAvgPrice (priorMatch none h.cusip))
        (generateComparisonTable noResolver alwaysPrice100 filingZeroShares
          none none).headI.priorYAvgPrice :=
  avgPrice_characterization noResolver alwaysPrice100 filingZeroShares
    none none _ (by with_unfolding_all decide)

/-- C5 counterexample: a holding with `shares = 0` and a usable ticker gets
`currentAvgPrice = 100` from the EOD fallback, not `0` as the claim states. -/
theorem currentAvgPrice_zero_shares_counterexample :
    (generateComparisonTable noResolver alwaysPrice100 filingZeroShares none
      none).map (fun r => (r.shares, r.currentAvgPrice)) = [(0, 100)] ∧
    (100 : ℚ) ≠ 0 := by
  constructor
  · with_unfolding_all decide
  · norm_num

/-! ### C6: value deltas and absent prior quarters -/

theorem filingX_row_facts :
    (generateComparisonTable noResolver noPrices filingX none none).map
      (fun r => (r.qoqValueChange, r.priorQValue, r.priorQAvgPrice)) =
      [(1000000, 0, 0)] := by
  simp [generateComparisonTable, enrichRows, buildTableData, mkRow, enrichRow,
    totalValue, filingX, resolveTicker, noResolver, noPrices, priorMatch,
    matchedValue, matchedPct, matchedAvgPrice, avgWithFallback, tickerFalsy,
    currentReportDate, priorReportDate, getQuarterEndDate, List.mergeSort]

/-- C6: every returned row satisfies
`qoqValueChange = currentValue - priorQValue`; each row's `priorQValue` is the
`value_usd` of the cusip-matched prior-quarter holding with `0` when no match
exists; and the spec's scenario — a current holding
`{cusip: "X", valueUsd: 1_000_000, shares: 10_000}` with no prior quarter —
produces `qoqValueChange = 1_000_000` and `priorQAvgPrice = 0`. -/
theorem qoqValueChange_characterization (res : String → Option String)
    (eod : String → String → Option ℚ) (cur : Filing)
    (pQ pY : Option Filing) :
    (∀ r ∈ generateComparisonTable res eod cur pQ pY,
      r.qoqValueChange = r.currentValue - r.priorQValue) ∧
    (∀ r ∈ generateComparisonTable res eod cur pQ pY,
      ∃ h ∈ cur.holdings, r.currentValue = h.value_usd ∧
        r.priorQValue = matchedValue (priorMatch pQ h.cusip) ∧
        (priorMatch pQ h.cusip = none → r.priorQValue = 0)) ∧
    (generateComparisonTable noResolver noPrices filingX none none).map
      (fun r => (r.qoqValueChange, r.priorQValue, r.priorQAvgPrice)) =
      [(1000000, 0, 0)] := by
  refine ⟨?_, ?_, ?_⟩
  · intro r hr
    obtain ⟨h, hh, rfl⟩ := mem_generateComparisonTable hr
    simp [enrichRow, mkRow]
  · intro r hr
    obtain ⟨h, hh, rfl⟩ := mem_generateComparisonTable hr
    have hcusip := (resolveTicker_fields res h).2.1
    refine ⟨h, hh, ?_, ?_, ?_⟩
    · simp [enrichRow, mkRow, (resolveTicker_fields res h).2.2.2.1]
    · rw [← hcusip]; simp [enrichRow, mkRow]
    · intro hnone
      rw [← hcusip] at hnone
      simp [enrichRow, mkRow, hnone, matchedValue]
  · exact filingX_row_facts

/-- Witness for the C6 theorem at a concrete filing. -/
theorem qoqValueChange_characterization_witness :
    (generateComparisonTable noResolver noPrices filingSortDemo none
      none).headI.qoqValueChange =
    (generateComparisonTable noResolver noPrices filingSortDemo none
      none).headI.currentValue -
    (generateComparisonTable noResolver noPrices filingSortDemo none
      none).headI.priorQValue :=
  (qoqValueChange_characterization noResolver noPrices filingSortDemo none
    none).1 _ (by with_unfolding_all decide)

/-! ### C7: resolution failures never remove a row -/

theorem bestLoop_score (issuer : String) :
    ∀ (qs : List Candidate) (b : BestState),
      (bestLoop issuer qs b).score = maxFrom issuer qs b.score := by
  intro qs
  induction qs with
  | nil => intro b; rfl
  | cons q qs ih =>
    intro b
    rw [show bestLoop issuer (q :: qs) b = bestLoop issuer qs
      (if b.score < candScore issuer q then
        ⟨candTicker q, candScore issuer q, candName q⟩ else b) from rfl]
    rw [show maxFrom issuer (q :: qs) b.score =
      maxFrom issuer qs (max b.score (candScore issuer q)) from rfl]
    by_cases hlt : b.score < candScore issuer q
    · rw [if_pos hlt, ih,
        max_eq_right (le_of_lt hlt)]
    · rw [if_neg hlt, ih,
        max_eq_left (not_lt.mp hlt)]

theorem avgWithFallback_falsy (eod : String → String → Option ℚ) (base : ℚ)
    (t : Option String) (date : Option String)
    (ht : tickerFalsy t = true) :
    avgWithFallback eod base t date = base := by
  unfold avgWithFallback
  cases date with
  | none => cases t <;> rfl
  | some d =>
    cases t with
    | none => rfl
    | some s =>
      simp only [tickerFalsy, decide_eq_true_eq] at ht
      subst ht
      simp

theorem map_proj_enrichRows (res : String → Option String)
    (eod : String → String → Option ℚ) (cur : Filing)
    (pQ pY : Option Filing) :
    (enrichRows (buildTableData res eod cur pQ pY)).map
      (fun r => (r.company, r.currentValue)) =
    cur.holdings.map (fun h => (h.company_name, h.value_usd)) := by
  unfold enrichRows buildTableData
  rw [List.map_map, List.map_map, List.map_map]
  apply List.map_congr_left
  intro h hh
  simp [enrichRow, mkRow, (resolveTicker_fields res h).1,
    (resolveTicker_fields res h).2.2.2.1]

theorem gct_proj (res : String → Option String)
    (eod : String → String → Option ℚ) (cur : Filing)
    (pQ pY : Option Filing) :
    (generateComparisonTable res eod cur pQ pY).map
      (fun r => (r.company, r.currentValue)) =
    ((cur.holdings.map (fun h => (h.company_name, h.value_usd))).mergeSort
      pairLE).take 20 := by
  unfold generateComparisonTable
  rw [List.map_take]
  have hms : (((enrichRows (buildTableData res eod cur pQ pY)).mergeSort
      rowLE).map fun r => (r.company, r.currentValue)) =
      ((enrichRows (buildTableData res eod cur pQ pY)).map
        (fun r => (r.company, r.currentValue))).mergeSort pairLE :=
    List.map_mergeSort fun a _ b _ => rfl
  rw [hms, map_proj_enrichRows]

/-- C7: ticker-resolution failure is contained.  `findTickerByName` yields a
no-ticker result on thrown fetches, non-2xx responses and low-scoring
candidate sets (it never raises — it is a total function); which rows the
comparison returns, and in which order, is independent of the resolver and
price oracles; and a holding whose resolved ticker is still falsy gets its row
with `ticker = "N/A"` and all average prices equal to the pure cost-basis
values, i.e. price enrichment is disabled for that row. -/
theorem resolution_failure_never_aborts :
    (∀ name, (findTickerByName name .exception).ticker = none ∧
      (findTickerByName name .httpError).ticker = none) ∧
    (∀ name quotes, maxFrom name quotes 0 < 65 / 100 →
      (findTickerByName name (.ok quotes)).ticker = none) ∧
    (∀ res₁ res₂ : String → Option String,
      ∀ eod₁ eod₂ : String → String → Option ℚ, ∀ cur pQ pY,
      (generateComparisonTable res₁ eod₁ cur pQ pY).map
        (fun r => (r.company, r.currentValue)) =
      (generateComparisonTable res₂ eod₂ cur pQ pY).map
        (fun r => (r.company, r.currentValue))) ∧
    (∀ res : String → Option String, ∀ eod : String → String → Option ℚ,
      ∀ cur pQ pY, ∀ h ∈ cur.holdings,
      tickerFalsy (resolveTicker res h).ticker = true →
      ∃ r ∈ enrichRows (buildTableData res eod cur pQ pY),
        (cur.holdings.length ≤ 20 →
          r ∈ generateComparisonTable res eod cur pQ pY) ∧
        r.company = h.company_name ∧ r.ticker = "N/A" ∧
        r.currentAvgPrice = matchedAvgPrice (some (resolveTicker res h)) ∧
        r.priorQAvgPrice = matchedAvgPrice (priorMatch pQ h.cusip) ∧
        r.priorYAvgPrice = matchedAvgPrice (priorMatch pY h.cusip)) := by
  refine ⟨?_, ?_, ?_, ?_⟩
  · intro name
    constructor <;> (by_cases hn : name = "" <;> simp [findTickerByName, hn])
  · intro name quotes hlt
    by_cases hn : name = ""
    · simp [findTickerByName, hn]
    · simp only [findTickerByName, if_neg hn]
      rw [if_neg]
      rw [bestLoop_score]
      exact not_le.mpr hlt
  · intro res₁ res₂ eod₁ eod₂ cur pQ pY
    rw [gct_proj, gct_proj]
  · intro res eod cur pQ pY h hh hfalsy
    have hcusip := (resolveTicker_fields res h).2.1
    refine ⟨enrichRow (totalValue (buildTableData res eod cur pQ pY))
      (mkRow eod (currentReportDate cur) (priorReportDate pQ)
        (priorReportDate pY) pQ pY (resolveTicker res h)), ?_, ?_, ?_, ?_,
          ?_, ?_, ?_⟩
    · unfold enrichRows
      refine List.mem_map_of_mem _ ?_
      unfold buildTableData
      exact List.mem_map_of_mem _ (List.mem_map_of_mem _ hh)
    · intro hlen
      exact gct_mem_of_mem_holdings hh hlen
    · simp [enrichRow, mkRow, (resolveTicker_fields res h).1]
    · cases ht : (resolveTicker res h).ticker with
      | none => simp [enrichRow, mkRow, ht]
      | some t =>
        rw [ht] at hfalsy
        simp only [tickerFalsy, decide_eq_true_eq] at hfalsy
        simp [enrichRow, mkRow, ht, hfalsy]
    · simp only [enrichRow, mkRow]
      rw [avgWithFallback_falsy _ _ _ _ hfalsy]
      simp [matchedAvgPrice]
    · simp only [enrichRow, mkRow]
      rw [avgWithFallback_falsy _ _ _ _ hfalsy, hcusip]
    · simp only [enrichRow, mkRow]
      rw [avgWithFallback_falsy _ _ _ _ hfalsy, hcusip]

/-- Witness for the C7 theorem: in a concrete filing whose first holding has
no ticker and a failing resolver, that holding's row appears with
`ticker = "N/A"` and pure cost-basis average prices. -/
theorem resolution_failure_never_aborts_witness :
    ∃ r ∈ enrichRows (buildTableData noResolver noPrices filingSortDemo none
      none),
      (filingSortDemo.holdings.length ≤ 20 →
        r ∈ generateComparisonTable noResolver noPrices filingSortDemo none
          none) ∧
      r.company = (⟨"A", "CA", none, 1, 500, 10⟩ : Holding).company_name ∧
      r.ticker = "N/A" ∧
      r.currentAvgPrice = matchedAvgPrice
        (some (resolveTicker noResolver ⟨"A", "CA", none, 1, 500, 10⟩)) ∧
      r.priorQAvgPrice = matchedAvgPrice
        (priorMatch none (⟨"A", "CA", none, 1, 500, 10⟩ : Holding).cusip) ∧
      r.priorYAvgPrice = matchedAvgPrice
        (priorMatch none (⟨"A", "CA", none, 1, 500, 10⟩ : Holding).cusip) :=
  resolution_failure_never_aborts.2.2.2 noResolver noPrices filingSortDemo
    none none ⟨"A", "CA", none, 1, 500, 10⟩ (by decide) (by decide)

/-! ### C8: the fuzzy-match scoring and acceptance rule -/

theorem maxFrom_ge (issuer : String) :
    ∀ (qs : List Candidate) (s : ℚ), s ≤ maxFrom issuer qs s := by
  intro qs
  induction qs with
  | nil => intro s; exact le_refl s
  | cons q qs ih =>
    intro s
    calc s ≤ max s (candScore issuer q) := le_max_left _ _
    _ ≤ maxFrom issuer qs (max s (candScore issuer q)) := ih _
    _ = maxFrom issuer (q :: qs) s := rfl

theorem bestLoop_fixed (issuer : String) :
    ∀ (qs : List Candidate) (b : BestState),
      maxFrom issuer qs b.score = b.score → bestLoop issuer qs b = b := by
  intro qs
  induction qs with
  | nil => intro b _; rfl
  | cons q qs ih =>
    intro b hfix
    have hstep : maxFrom issuer (q :: qs) b.score =
        maxFrom issuer qs (max b.score (candScore issuer q)) := rfl
    rw [hstep] at hfix
    have hle : max b.score (candScore issuer q) ≤ b.score := by
      calc max b.score (candScore issuer q) ≤
          maxFrom issuer qs (max b.score (candScore issuer q)) :=
            maxFrom_ge issuer qs _
      _ = b.score := hfix
    have hs : candScore issuer q ≤ b.score :=
      le_trans (le_max_right _ _) hle
    have hmax : max b.score (candScore issuer q) = b.score := max_eq_left hs
    rw [show bestLoop issuer (q :: qs) b = bestLoop issuer qs
      (if b.score < candScore issuer q then
        ⟨candTicker q, candScore issuer q, candName q⟩ else b) from rfl]
    rw [if_neg (not_lt.mpr hs)]
    refine ih b ?_
    calc maxFrom issuer qs b.score
        = maxFrom issuer qs (max b.score (candScore issuer q)) := by rw [hmax]
    _ = b.score := hfix

theorem bestLoop_argmax (issuer : String) :
    ∀ (qs : List Candidate) (b : BestState),
      b.score < maxFrom issuer qs b.score →
      ∃ q, qs.find?
          (fun x => decide (candScore issuer x = maxFrom issuer qs b.score)) =
          some q ∧
        bestLoop issuer qs b =
          ⟨candTicker q, candScore issuer q, candName q⟩ ∧
        candScore issuer q = maxFrom issuer qs b.score := by
  intro qs
  induction qs with
  | nil => intro b hlt; exact absurd hlt (lt_irrefl _)
  | cons q qs ih =>
    intro b hlt
    have hstep : maxFrom issuer (q :: qs) b.score =
        maxFrom issuer qs (max b.score (candScore issuer q)) := rfl
    have hloopstep : bestLoop issuer (q :: qs) b = bestLoop issuer qs
        (if b.score < candScore issuer q then
          ⟨candTicker q, candScore issuer q, candName q⟩ else b) := rfl
    by_cases hbs : b.score < candScore issuer q
    · have hmax : max b.score (candScore issuer q) = candScore issuer q :=
        max_eq_right (le_of_lt hbs)
      by_cases hM : candScore issuer q <
          maxFrom issuer qs (candScore issuer q)
      · obtain ⟨q', hfind, hloop, hscore⟩ :=
          ih ⟨candTicker q, candScore issuer q, candName q⟩ hM
        have hMq : maxFrom issuer (q :: qs) b.score =
            maxFrom issuer qs (candScore issuer q) := by rw [hstep, hmax]
        refine ⟨q', ?_, ?_, ?_⟩
        · rw [List.find?_cons_of_neg, hMq]
          · exact hfind
          · rw [hMq]
            simp only [decide_eq_true_eq]
            exact ne_of_lt hM
        · rw [hloopstep, if_pos hbs]
          exact hloop
        · rw [hMq]
          exact hscore
      · have heq : maxFrom issuer qs (candScore issuer q) =
            candScore issuer q :=
          le_antisymm (not_lt.mp hM) (maxFrom_ge issuer qs _)
        have hMq : maxFrom issuer (q :: qs) b.score = candScore issuer q := by
          rw [hstep, hmax, heq]
        refine ⟨q, ?_, ?_, by rw [hMq]⟩
        · rw [List.find?_cons_of_pos]
          rw [hMq]
          simp
        · rw [hloopstep, if_pos hbs]
          exact bestLoop_fixed issuer qs _ heq
    · have hmax : max b.score (candScore issuer q) = b.score :=
        max_eq_left (not_lt.mp hbs)
      have hMq : maxFrom issuer (q :: qs) b.score =
          maxFrom issuer qs b.score := by rw [hstep, hmax]
      rw [hMq] at hlt
      obtain ⟨q', hfind, hloop, hscore⟩ := ih b hlt
      refine ⟨q', ?_, ?_, ?_⟩
      · rw [List.find?_cons_of_neg, hMq]
        · exact hfind
        · rw [hMq]
          simp only [decide_eq_true_eq]
          exact ne_of_lt (lt_of_le_of_lt (not_lt.mp hbs) hlt)
      · rw [hloopstep, if_neg hbs]
        exact hloop
      · rw [hMq]
        exact hscore

theorem splitWsAux_ne_nil : ∀ (l cur : List Char), splitWsAux l cur ≠ [] := by
  intro l
  induction l with
  | nil => intro cur; simp [splitWsAux]
  | cons c cs ih =>
    intro cur
    unfold splitWsAux
    split
    · exact List.cons_ne_nil _ _
    · exact ih _

theorem wordTokens_ne_nil (s : String) : wordTokens s ≠ [] := by
  unfold wordTokens jsSplitWs
  intro h
  exact splitWsAux_ne_nil _ _ (List.map_eq_nil_iff.mp h)

theorem dedup_toFinset_eq (l : List String) :
    l.dedup.toFinset = l.toFinset := by
  ext a
  simp [List.mem_toFinset, List.mem_dedup]

theorem length_dedup_filter (p : String → Bool) (l : List String) :
    (l.dedup.filter p).length =
      (l.toFinset.filter (fun x => p x = true)).card := by
  rw [← List.toFinset_card_of_nodup ((List.nodup_dedup l).filter p)]
  rw [List.toFinset_filter, dedup_toFinset_eq]

theorem length_dedup (l : List String) : l.dedup.length = l.toFinset.card := by
  rw [← List.toFinset_card_of_nodup (List.nodup_dedup l), dedup_toFinset_eq]

/-- The code's set-based overlap score is exactly the spec's token-set
intersection-over-union on nonempty inputs. -/
theorem similarity_eq_tokenIoU (a b : String) (ha : a ≠ "") (hb : b ≠ "") :
    similarity a b = tokenIoU a b := by
  have hinter : (((wordTokens a).dedup).filter
      (fun x => (wordTokens b).contains x)).length =
      ((wordTokens a).toFinset ∩ (wordTokens b).toFinset).card := by
    rw [length_dedup_filter]
    congr 1
    rw [← Finset.filter_mem_eq_inter]
    apply Finset.filter_congr
    intro x _
    simp [List.mem_toFinset]
  have hunion : ((wordTokens a ++ wordTokens b).dedup).length =
      ((wordTokens a).toFinset ∪ (wordTokens b).toFinset).card := by
    rw [length_dedup, List.toFinset_append]
  have hne : ((wordTokens a).toFinset ∪ (wordTokens b).toFinset).card ≠ 0 := by
    obtain ⟨t, ht⟩ := List.exists_mem_of_ne_nil _ (wordTokens_ne_nil a)
    exact Finset.card_ne_zero_of_mem
      (Finset.mem_union_left _ (List.mem_toFinset.mpr ht))
  simp only [similarity, tokenIoU]
  rw [if_neg (by simp [ha, hb])]
  rw [hinter, hunion, if_neg hne]

/-- C8: for a nonempty issuer name and a successful search response, each
candidate's score is the token-set intersection-over-union between the issuer
name and the candidate's display name (its ticker when no name is present),
plus a `0.15` booster — capped at `1` — when the upper-cased issuer name
contains the upper-cased candidate ticker as a substring; the first candidate
attaining the maximal score is accepted exactly when that maximum reaches
`0.65`, and otherwise no ticker is resolved. -/
theorem findTickerByName_scoring (issuer : String) (quotes : List Candidate)
    (hiss : issuer ≠ "") :
    (∀ q ∈ quotes, candArg q ≠ "" →
      candScore issuer q = min 1 (tokenIoU issuer (candArg q) +
        if (jsUpper ((candTicker q).getD "")).toList <:+:
            (jsUpper issuer).toList then 15 / 100 else 0)) ∧
    (65 / 100 ≤ maxFrom issuer quotes 0 →
      ∃ q, quotes.find?
          (fun x => decide (candScore issuer x = maxFrom issuer quotes 0)) =
          some q ∧
        findTickerByName issuer (.ok quotes) =
          ⟨candTicker q, maxFrom issuer quotes 0, "yahoo",
            some (candName q)⟩) ∧
    (maxFrom issuer quotes 0 < 65 / 100 →
      (findTickerByName issuer (.ok quotes)).ticker = none) := by
  refine ⟨?_, ?_, ?_⟩
  · intro q _ harg
    simp only [candScore]
    rw [similarity_eq_tokenIoU issuer (candArg q) hiss harg]
  · intro hM
    have hlt : (⟨none, 0, ""⟩ : BestState).score <
        maxFrom issuer quotes (⟨none, 0, ""⟩ : BestState).score :=
      lt_of_lt_of_le (by norm_num) hM
    obtain ⟨q, hfind, hloop, hscore⟩ :=
      bestLoop_argmax issuer quotes ⟨none, 0, ""⟩ hlt
    refine ⟨q, hfind, ?_⟩
    simp only [findTickerByName, if_neg hiss]
    rw [hloop]
    have hsc : (⟨candTicker q, candScore issuer q, candName q⟩ :
        BestState).score = maxFrom issuer quotes 0 := hscore
    rw [if_pos (le_of_le_of_eq hM hsc.symm)]
    have h0 : (⟨none, 0, ""⟩ : BestState).score = 0 := rfl
    rw [h0] at hscore
    rw [hscore]
  · intro hM
    simp only [findTickerByName, if_neg hiss]
    rw [if_neg]
    rw [bestLoop_score]
    exact not_le.mpr hM

/-- Witness for the C8 theorem at the `"Acme Corp"` scenario: the single
candidate scores `2/3 + 0.15 = 49/60 ≥ 0.65` and its ticker is accepted. -/
theorem findTickerByName_scoring_witness :
    ∃ q, [acmeCandidate].find? (fun x => decide (candScore "Acme Corp" x =
        maxFrom "Acme Corp" [acmeCandidate] 0)) = some q ∧
      findTickerByName "Acme Corp" (.ok [acmeCandidate]) =
        ⟨candTicker q, maxFrom "Acme Corp" [acmeCandidate] 0, "yahoo",
          some (candName q)⟩ :=
  (findTickerByName_scoring "Acme Corp" [acmeCandidate] (by decide)).2.1
    (by with_unfolding_all decide)

/-! ### C9: descending stable sort of the output -/

theorem rowLE_trans : ∀ a b c : Row, rowLE a b = true → rowLE b c = true →
    rowLE a c = true := by
  intro a b c hab hbc
  simp only [rowLE, decide_eq_true_eq] at hab hbc ⊢
  exact le_trans hbc hab

theorem rowLE_total : ∀ a b : Row, (rowLE a b || rowLE b a) = true := by
  intro a b
  simp only [rowLE, Bool.or_eq_true, decide_eq_true_eq]
  exact le_total b.currentValue a.currentValue

theorem filingSortDemo_order :
    (generateComparisonTable noResolver noPrices filingSortDemo none
      none).map Row.currentValue = [1500, 1000, 500] := by
  with_unfolding_all decide

/-- C9: the returned rows are pairwise descending in `currentValue`; the sort
is stable — for every value `v`, the returned rows carrying `v` form a prefix
of the `v`-rows of the pre-sort table in their original input order — and the
spec's `[500, 1500, 1000]` example sorts to `[1500, 1000, 500]`. -/
theorem output_sorted_descending (res : String → Option String)
    (eod : String → String → Option ℚ) (cur : Filing)
    (pQ pY : Option Filing) :
    List.Pairwise (fun a b => b.currentValue ≤ a.currentValue)
      (generateComparisonTable res eod cur pQ pY) ∧
    (∀ v : ℚ, (generateComparisonTable res eod cur pQ pY).filter
        (fun r => decide (r.currentValue = v)) <+:
      (enrichRows (buildTableData res eod cur pQ pY)).filter
        (fun r => decide (r.currentValue = v))) ∧
    (generateComparisonTable noResolver noPrices filingSortDemo none
      none).map Row.currentValue = [1500, 1000, 500] := by
  refine ⟨?_, ?_, filingSortDemo_order⟩
  · have hsorted := List.sorted_mergeSort rowLE_trans rowLE_total
      (enrichRows (buildTableData res eod cur pQ pY))
    have htake : (generateComparisonTable res eod cur pQ pY).Sublist
        ((enrichRows (buildTableData res eod cur pQ pY)).mergeSort rowLE) :=
      List.take_sublist _ _
    exact ((hsorted.sublist htake).imp
      (fun hab => by simpa [rowLE] using hab))
  · intro v
    have hfilter_eq : ((enrichRows (buildTableData res eod cur pQ
        pY)).mergeSort rowLE).filter (fun r => decide (r.currentValue = v)) =
        (enrichRows (buildTableData res eod cur pQ pY)).filter
          (fun r => decide (r.currentValue = v)) := by
      have hpair : List.Pairwise (fun a b => rowLE a b = true)
          ((enrichRows (buildTableData res eod cur pQ pY)).filter
            (fun r => decide (r.currentValue = v))) := by
        apply List.pairwise_of_forall_mem_list
        intro a ha b hb
        have ha' := (List.mem_filter.mp ha).2
        have hb' := (List.mem_filter.mp hb).2
        simp only [decide_eq_true_eq] at ha' hb'
        simp [rowLE, ha', hb']
      have hsub : ((enrichRows (buildTableData res eod cur pQ pY)).filter
          (fun r => decide (r.currentValue = v))).Sublist
          (((enrichRows (buildTableData res eod cur pQ pY)).mergeSort
            rowLE).filter (fun r => decide (r.currentValue = v))) := by
        have h1 := List.sublist_mergeSort rowLE_trans rowLE_total hpair
          (List.filter_sublist (enrichRows (buildTableData res eod cur
            pQ pY)))
        have h2 := List.Sublist.filter (fun r => decide (r.currentValue = v))
          h1
        rwa [List.filter_eq_self.mpr
          (fun a ha => (List.mem_filter.mp ha).2)] at h2
      have hlen : (((enrichRows (buildTableData res eod cur pQ pY)).mergeSort
          rowLE).filter (fun r => decide (r.currentValue = v))).length =
          ((enrichRows (buildTableData res eod cur pQ pY)).filter
            (fun r => decide (r.currentValue = v))).length :=
        ((List.mergeSort_perm _ rowLE).filter _).length_eq
      exact (hsub.eq_of_length hlen.symm).symm
    have hpre : generateComparisonTable res eod cur pQ pY <+:
        (enrichRows (buildTableData res eod cur pQ pY)).mergeSort rowLE :=
      List.take_prefix _ _
    have := hpre.filter (fun r => decide (r.currentValue = v))
    rwa [hfilter_eq] at this

/-! ### C10: guarded percentage-change fields -/

theorem mkRow_pct_guard (eod : String → String → Option ℚ) (cd : String)
    (pqd pyd : Option String) (pQ pY : Option Filing) (h : Holding) :
    ((mkRow eod cd pqd pyd pQ pY h).priorQAvgPrice ≤ 0 →
      (mkRow eod cd pqd pyd pQ pY h).qoqAvgPriceChangePct = none) ∧
    (0 < (mkRow eod cd pqd pyd pQ pY h).priorQAvgPrice →
      (mkRow eod cd pqd pyd pQ pY h).qoqAvgPriceChangePct =
        some (((mkRow eod cd pqd pyd pQ pY h).currentAvgPrice -
          (mkRow eod cd pqd pyd pQ pY h).priorQAvgPrice) /
            (mkRow eod cd pqd pyd pQ pY h).priorQAvgPrice * 100)) ∧
    ((mkRow eod cd pqd pyd pQ pY h).priorYAvgPrice ≤ 0 →
      (mkRow eod cd pqd pyd pQ pY h).yoyAvgPriceChangePct = none) ∧
    (0 < (mkRow eod cd pqd pyd pQ pY h).priorYAvgPrice →
      (mkRow eod cd pqd pyd pQ pY h).yoyAvgPriceChangePct =
        some (((mkRow eod cd pqd pyd pQ pY h).currentAvgPrice -
          (mkRow eod cd pqd pyd pQ pY h).priorYAvgPrice) /
            (mkRow eod cd pqd pyd pQ pY h).priorYAvgPrice * 100)) := by
  refine ⟨?_, ?_, ?_, ?_⟩ <;> intro hyp
  · show (if 0 < (mkRow eod cd pqd pyd pQ pY h).priorQAvgPrice then
      some (((mkRow eod cd pqd pyd pQ pY h).currentAvgPrice -
        (mkRow eod cd pqd pyd pQ pY h).priorQAvgPrice) /
          (mkRow eod cd pqd pyd pQ pY h).priorQAvgPrice * 100) else none) =
      none
    rw [if_neg (not_lt.mpr hyp)]
  · show (if 0 < (mkRow eod cd pqd pyd pQ pY h).priorQAvgPrice then
      some (((mkRow eod cd pqd pyd pQ pY h).currentAvgPrice -
        (mkRow eod cd pqd pyd pQ pY h).priorQAvgPrice) /
          (mkRow eod cd pqd pyd pQ pY h).priorQAvgPrice * 100) else none) = _
    rw [if_pos hyp]
  · show (if 0 < (mkRow eod cd pqd pyd pQ pY h).priorYAvgPrice then
      some (((mkRow eod cd pqd pyd pQ pY h).currentAvgPrice -
        (mkRow eod cd pqd pyd pQ pY h).priorYAvgPrice) /
          (mkRow eod cd pqd pyd pQ pY h).priorYAvgPrice * 100) else none) =
      none
    rw [if_neg (not_lt.mpr hyp)]
  · show (if 0 < (mkRow eod cd pqd pyd pQ pY h).priorYAvgPrice then
      some (((mkRow eod cd pqd pyd pQ pY h).currentAvgPrice -
        (mkRow eod cd pqd pyd pQ pY h).priorYAvgPrice) /
          (mkRow eod cd pqd pyd pQ pY h).priorYAvgPrice * 100) else none) = _
    rw [if_pos hyp]

/-- C10: in every returned row, `qoqAvgPriceChangePct` is `null` whenever
`priorQAvgPrice ≤ 0` and otherwise equals
`(currentAvgPrice - priorQAvgPrice) / priorQAvgPrice * 100`, and likewise for
the `yoy` fields with `priorYAvgPrice`; the division is reached only under the
`priorAvgPrice > 0` guard. -/
theorem avgPriceChangePct_guard (res : String → Option String)
    (eod : String → String → Option ℚ) (cur : Filing)
    (pQ pY : Option Filing) :
    ∀ r ∈ generateComparisonTable res eod cur pQ pY,
      (r.priorQAvgPrice ≤ 0 → r.qoqAvgPriceChangePct = none) ∧
      (0 < r.priorQAvgPrice → r.qoqAvgPriceChangePct =
        some ((r.currentAvgPrice - r.priorQAvgPrice) /
          r.priorQAvgPrice * 100)) ∧
      (r.priorYAvgPrice ≤ 0 → r.yoyAvgPriceChangePct = none) ∧
      (0 < r.priorYAvgPrice → r.yoyAvgPriceChangePct =
        some ((r.currentAvgPrice - r.priorYAvgPrice) /
          r.priorYAvgPrice * 100)) := by
  intro r hr
  obtain ⟨h, hh, rfl⟩ := mem_generateComparisonTable hr
  exact mkRow_pct_guard eod (currentReportDate cur) (priorReportDate pQ)
    (priorReportDate pY) pQ pY (resolveTicker res h)

/-- Witness for the C10 theorem: a row without a prior quarter has
`priorQAvgPrice = 0 ≤ 0` and a `null` percentage change. -/
theorem avgPriceChangePct_guard_witness :
    (generateComparisonTable noResolver noPrices filingSortDemo none
      none).headI.qoqAvgPriceChangePct = none :=
  ((avgPriceChangePct_guard noResolver noPrices filingSortDemo none none) _
    (by with_unfolding_all decide)).1 (by with_unfolding_all decide)

end PortfolioReport
